import Mathlib

/-!
Verification of the Bayesian likelihood-ratio estimator
(`src/model/forecaster_en.py`, class `BayesForecaster`).

The core computation `fit_likelihoods` is shallowly embedded over in-memory
tables: the indicator catalog, the historical events table and the
observation table are lists of rows, real-valued columns are rationals, and
the Python dictionaries built from row iteration are modelled as
last-occurrence lookups on association lists.  The only failure point of the
core (a missing key in the success dictionary) is modelled by an `Option`
result.
-/

attribute [local semireducible] Rat.mul Rat.inv Rat.add Rat.sub

namespace Forecaster

/-- A row of the indicator catalog (`list_of_indicators.csv`):
`indicator_id`, `description` (other columns are ignored by the core). -/
structure IndicatorRow where
  indicator_id : String
  description : String
deriving DecidableEq, Repr

/-- A row of the historical events table (`historical_events.csv`):
`event_id`, `target_score`. -/
structure EventRow where
  event_id : String
  target_score : ℚ
deriving DecidableEq, Repr

/-- A row of the observation table (`historical_indicators.csv`):
`event_id`, `indicator_id`, `severity`. -/
structure ObsRow where
  event_id : String
  indicator_id : String
  severity : ℚ
deriving DecidableEq, Repr

/-- Constructor-level configuration of `BayesForecaster`:
`prior_prob`, `success_threshold`, `laplace_alpha`. -/
structure Config where
  prior_prob : ℚ
  success_threshold : ℚ
  laplace_alpha : ℚ
deriving DecidableEq, Repr

/-- A cell of the dense events × indicators matrix (`full_df`). -/
structure Cell where
  event_id : String
  indicator_id : String
  active : Bool
  is_success : Bool
deriving DecidableEq, Repr

/-- A row of `result_rows` before the description merge. -/
structure RatioRow where
  indicator_id : String
  p_given_H : ℚ
  p_given_notH : ℚ
  k_ratio : ℚ
deriving DecidableEq, Repr

/-- A row of the final `ratios_df` (after the left merge with the catalog);
`description` is `none` when the left merge finds no catalog row. -/
structure OutRow where
  indicator_id : String
  p_given_H : ℚ
  p_given_notH : ℚ
  k_ratio : ℚ
  description : Option String
deriving DecidableEq, Repr

/-- Helper for the model of pd.unique: keep the values not seen before,
threading the set of already-emitted values. -/
def uniqueListAux (seen : List String) : List String → List String
  | [] => []
  | a :: t => if a ∈ seen then uniqueListAux seen t
              else a :: uniqueListAux (a :: seen) t

/-- Model of pd.unique on a column: distinct values in first-occurrence order. -/
def uniqueList (l : List String) : List String :=
  uniqueListAux [] l

/-- Model of the method labelled events (code: _label_events_success): every event row labelled with
`is_success = (target_score >= success_threshold)` (`labels_df`). -/
def labelEvents (threshold : ℚ) (evs : List EventRow) : List (String × Bool) :=
  evs.map (fun e => (e.event_id, decide (threshold ≤ e.target_score)))

/-- The Python dictionary built by iterating rows (`success_lookup`):
a later row with the same key overwrites an earlier one, so a lookup
returns the value of the last matching row. -/
def successLookup (labels : List (String × Bool)) (ev : String) : Option Bool :=
  ((labels.filter (fun r => r.1 = ev)).getLast?).map (fun r => r.2)

/-- Per-observation activity flag: `active = (severity > 0)` (line 92). -/
def rowActive (o : ObsRow) : Bool :=
  decide (0 < o.severity)

/-- The `groupby(...).max()` of 0/1 activity flags: the maximum of a group
of booleans, `false` on the empty group. -/
def groupMax (l : List Bool) : Bool :=
  l.foldr (fun a b => a || b) false

/-- Model of the activity lookup with default (code: act_lookup.get with default 0): the collapsed activity of an observed
`(event_id, indicator_id)` pair (the `groupby` maximum of its rows'
activity flags), defaulting to inactive when the pair was never observed —
the empty group also collapses to `false`, so one definition covers both. -/
def pivotActive (obs : List ObsRow) (k : String × String) : Bool :=
  groupMax (((obs.filter
    (fun o => o.event_id = k.1 ∧ o.indicator_id = k.2)).map rowActive))

/-- The row-major list of every `(event, indicator)` pair
(the two nested `for` loops building `full_rows`). -/
def crossPairs (events indicators : List String) : List (String × String) :=
  events.flatMap (fun ev => indicators.map (fun ind => (ev, ind)))

/-- Model of full_df: the dense matrix with one cell per cross-product pair,
carrying the collapsed activity flag and the event's success label. -/
def denseMatrix (labels : List (String × Bool)) (obs : List ObsRow)
    (events indicators : List String) : List Cell :=
  (crossPairs events indicators).map
    (fun p => ⟨p.1, p.2, pivotActive obs p, (successLookup labels p.1).getD false⟩)

/-- The epsilon floor of the ratio (`eps = 1e-9`). -/
def eps : ℚ :=
  1 / 1000000000

/-- The body of the estimator loop for one indicator (lines 145–176):
slice the success/failure partitions, count totals and active cells, apply
Laplace smoothing with the neutral fallbacks, and take the floored ratio. -/
def ratioRow (alpha : ℚ) (succ fail : List Cell) (ind : String) : RatioRow :=
  let succSlice := succ.filter (fun c => c.indicator_id = ind)
  let failSlice := fail.filter (fun c => c.indicator_id = ind)
  let countSuccessActive : ℚ := (succSlice.filter (fun c => c.active)).length
  let countFailActive : ℚ := (failSlice.filter (fun c => c.active)).length
  let p_given_H : ℚ :=
    if succSlice.length = 0 then 1 / 2
    else (countSuccessActive + alpha) / ((succSlice.length : ℚ) + 2 * alpha)
  let p_given_notH : ℚ :=
    if failSlice.length = 0 then 1 / 2
    else (countFailActive + alpha) / ((failSlice.length : ℚ) + 2 * alpha)
  ⟨ind, p_given_H, p_given_notH, p_given_H / max p_given_notH eps⟩

/-- Model of result_rows: partition the dense matrix by the success label once,
then one `ratioRow` per catalog indicator, in catalog order. -/
def resultRows (alpha : ℚ) (indicators : List String) (full : List Cell) :
    List RatioRow :=
  let succ := full.filter (fun c => c.is_success)
  let fail := full.filter (fun c => !c.is_success)
  indicators.map (ratioRow alpha succ fail)

/-- The final left merge with the catalog on `indicator_id` (lines 181–185):
each result row joins with every matching catalog row; a row with no match
keeps a missing description. -/
def mergeDesc (inds : List IndicatorRow) (rows : List RatioRow) : List OutRow :=
  rows.flatMap (fun r =>
    match inds.filter (fun i => i.indicator_id = r.indicator_id) with
    | [] => [⟨r.indicator_id, r.p_given_H, r.p_given_notH, r.k_ratio, none⟩]
    | m :: ms => (m :: ms).map
        (fun i => ⟨r.indicator_id, r.p_given_H, r.p_given_notH, r.k_ratio,
          some i.description⟩))

/-- Model of fit_likelihoods: label the events, collapse the observations, expand
the dense matrix over the distinct event and indicator ids, estimate the
smoothed probabilities and ratio per indicator, and merge descriptions.
`none` models the only way the core can raise: a `KeyError` on
`success_lookup[ev]` while building the dense matrix. -/
def fitLikelihoods (cfg : Config) (inds : List IndicatorRow)
    (evs : List EventRow) (obs : List ObsRow) : Option (List OutRow) :=
  let labels := labelEvents cfg.success_threshold evs
  let indicators := uniqueList (inds.map (fun i => i.indicator_id))
  let events := uniqueList (evs.map (fun e => e.event_id))
  if events.all (fun ev => (successLookup labels ev).isSome) then
    some (mergeDesc inds (resultRows cfg.laplace_alpha indicators
      (denseMatrix labels obs events indicators)))
  else
    none

/-! ### Basic lemmas about the embedded operations -/

theorem mem_uniqueListAux (l : List String) :
    ∀ (seen : List String) (a : String),
      a ∈ uniqueListAux seen l ↔ a ∈ l ∧ a ∉ seen := by
  induction l with
  | nil => intro seen a; simp [uniqueListAux]
  | cons b t ih =>
    intro seen a
    by_cases hb : b ∈ seen
    · rw [uniqueListAux, if_pos hb, ih]
      by_cases hab : a = b
      · subst hab
        simp [hb]
      · simp [hab]
    · rw [uniqueListAux, if_neg hb]
      by_cases hab : a = b
      · subst hab
        simp [hb]
      · simp [hab, ih]

theorem mem_uniqueList (l : List String) (a : String) :
    a ∈ uniqueList l ↔ a ∈ l := by
  unfold uniqueList
  rw [mem_uniqueListAux]
  simp

theorem nodup_uniqueListAux (l : List String) :
    ∀ seen : List String, (uniqueListAux seen l).Nodup := by
  induction l with
  | nil => intro seen; simp [uniqueListAux]
  | cons b t ih =>
    intro seen
    by_cases hb : b ∈ seen
    · rw [uniqueListAux, if_pos hb]
      exact ih seen
    · rw [uniqueListAux, if_neg hb]
      refine List.nodup_cons.mpr ⟨?_, ih _⟩
      intro hmem
      exact ((mem_uniqueListAux t (b :: seen) b).mp hmem).2 (List.mem_cons_self _ _)

theorem nodup_uniqueList (l : List String) : (uniqueList l).Nodup :=
  nodup_uniqueListAux l []

theorem uniqueListAux_eq_self (l : List String) :
    ∀ seen : List String, l.Nodup → (∀ a ∈ l, a ∉ seen) →
      uniqueListAux seen l = l := by
  induction l with
  | nil => intro seen _ _; rfl
  | cons b t ih =>
    intro seen hnd hout
    rcases List.nodup_cons.mp hnd with ⟨hb, ht⟩
    rw [uniqueListAux, if_neg (hout b (List.mem_cons_self _ _))]
    rw [ih (b :: seen) ht]
    intro a ha
    intro hmem
    rcases List.mem_cons.mp hmem with rfl | hseen
    · exact hb ha
    · exact hout a (List.mem_cons_of_mem _ ha) hseen

theorem uniqueList_eq_self (l : List String) (h : l.Nodup) :
    uniqueList l = l :=
  uniqueListAux_eq_self l [] h (fun _ _ hmem => by simp at hmem)

theorem groupMax_eq_true (l : List Bool) :
    groupMax l = true ↔ ∃ b ∈ l, b = true := by
  induction l with
  | nil => simp [groupMax]
  | cons a t ih =>
    simp only [groupMax, List.foldr_cons, Bool.or_eq_true] at *
    rw [ih]
    simp

theorem pivotActive_eq_true (obs : List ObsRow) (ev ind : String) :
    pivotActive obs (ev, ind) = true ↔
      ∃ o ∈ obs, o.event_id = ev ∧ o.indicator_id = ind ∧ 0 < o.severity := by
  unfold pivotActive
  rw [groupMax_eq_true]
  constructor
  · rintro ⟨b, hb, rfl⟩
    rcases List.mem_map.mp hb with ⟨o, ho, hact⟩
    rcases List.mem_filter.mp ho with ⟨hoo, hpred⟩
    simp only [decide_eq_true_eq] at hpred
    refine ⟨o, hoo, hpred.1, hpred.2, ?_⟩
    have := hact
    unfold rowActive at this
    exact of_decide_eq_true this
  · rintro ⟨o, ho, h1, h2, h3⟩
    refine ⟨rowActive o, ?_, ?_⟩
    · exact List.mem_map.mpr ⟨o, List.mem_filter.mpr ⟨ho, by simp [h1, h2]⟩, rfl⟩
    · unfold rowActive
      exact decide_eq_true h3

theorem pivotActive_eq_false_of_unobserved (obs : List ObsRow) (ev ind : String)
    (h : ∀ o ∈ obs, ¬(o.event_id = ev ∧ o.indicator_id = ind)) :
    pivotActive obs (ev, ind) = false := by
  unfold pivotActive
  have hnil : obs.filter (fun o => o.event_id = ev ∧ o.indicator_id = ind) = [] := by
    apply List.filter_eq_nil_iff.mpr
    intro o ho
    simp only [decide_eq_true_eq]
    exact h o ho
  rw [hnil]
  rfl

theorem successLookup_labelEvents_isSome (t : ℚ) (evs : List EventRow)
    (ev : String) (h : ev ∈ evs.map (fun e => e.event_id)) :
    (successLookup (labelEvents t evs) ev).isSome := by
  unfold successLookup
  rw [Option.isSome_map']
  rw [List.getLast?_isSome]
  rcases List.mem_map.mp h with ⟨e, he, hid⟩
  apply List.ne_nil_of_mem (a := (e.event_id, decide (t ≤ e.target_score)))
  exact List.mem_filter.mpr ⟨List.mem_map.mpr ⟨e, he, rfl⟩, by simp [hid]⟩

theorem fitLikelihoods_eq_some (cfg : Config) (inds : List IndicatorRow)
    (evs : List EventRow) (obs : List ObsRow) :
    fitLikelihoods cfg inds evs obs =
      some (mergeDesc inds
        (resultRows cfg.laplace_alpha (uniqueList (inds.map (fun i => i.indicator_id)))
          (denseMatrix (labelEvents cfg.success_threshold evs) obs
            (uniqueList (evs.map (fun e => e.event_id)))
            (uniqueList (inds.map (fun i => i.indicator_id)))))) := by
  unfold fitLikelihoods
  rw [if_pos]
  rw [List.all_eq_true]
  intro ev hev
  exact successLookup_labelEvents_isSome _ _ _ ((mem_uniqueList _ _).mp hev)

theorem mem_crossPairs (events indicators : List String) (p : String × String) :
    p ∈ crossPairs events indicators ↔ p.1 ∈ events ∧ p.2 ∈ indicators := by
  unfold crossPairs
  rw [List.mem_flatMap]
  constructor
  · rintro ⟨ev, hev, hp⟩
    rcases List.mem_map.mp hp with ⟨ind, hind, rfl⟩
    exact ⟨hev, hind⟩
  · rintro ⟨h1, h2⟩
    exact ⟨p.1, h1, List.mem_map.mpr ⟨p.2, h2, rfl⟩⟩

theorem length_crossPairs (events indicators : List String) :
    (crossPairs events indicators).length = events.length * indicators.length := by
  unfold crossPairs
  induction events with
  | nil => simp
  | cons e es ih => simp [ih, Nat.succ_mul, Nat.add_comm]

theorem nodup_crossPairs (events indicators : List String)
    (he : events.Nodup) (hi : indicators.Nodup) :
    (crossPairs events indicators).Nodup := by
  unfold crossPairs
  rw [List.nodup_flatMap]
  constructor
  · intro ev _
    refine hi.map ?_
    intro i j hij
    exact (Prod.mk.injEq _ _ _ _).mp hij |>.2
  · refine he.imp ?_
    intro a b hab
    intro p hpa hpb
    rcases List.mem_map.mp hpa with ⟨i, _, rfl⟩
    rcases List.mem_map.mp hpb with ⟨j, _, hj⟩
    exact hab ((Prod.mk.injEq _ _ _ _).mp hj |>.1).symm

theorem mergeDesc_mem (inds : List IndicatorRow) (rows : List RatioRow)
    (r : OutRow) (h : r ∈ mergeDesc inds rows) :
    ∃ q ∈ rows, r.indicator_id = q.indicator_id ∧ r.p_given_H = q.p_given_H ∧
      r.p_given_notH = q.p_given_notH ∧ r.k_ratio = q.k_ratio := by
  unfold mergeDesc at h
  rcases List.mem_flatMap.mp h with ⟨q, hq, hr⟩
  refine ⟨q, hq, ?_⟩
  cases hm : inds.filter (fun i => i.indicator_id = q.indicator_id) with
  | nil =>
    rw [hm] at hr
    simp only [List.mem_singleton] at hr
    rw [hr]
    exact ⟨rfl, rfl, rfl, rfl⟩
  | cons m ms =>
    rw [hm] at hr
    rcases List.mem_map.mp hr with ⟨i, _, hi⟩
    rw [← hi]
    exact ⟨rfl, rfl, rfl, rfl⟩

theorem mergeDesc_exists (inds : List IndicatorRow) (rows : List RatioRow)
    (q : RatioRow) (h : q ∈ rows) :
    ∃ r ∈ mergeDesc inds rows, r.indicator_id = q.indicator_id ∧
      r.p_given_H = q.p_given_H ∧ r.p_given_notH = q.p_given_notH ∧
      r.k_ratio = q.k_ratio := by
  unfold mergeDesc
  cases hm : inds.filter (fun i => i.indicator_id = q.indicator_id) with
  | nil =>
    refine ⟨⟨q.indicator_id, q.p_given_H, q.p_given_notH, q.k_ratio, none⟩,
      ?_, rfl, rfl, rfl, rfl⟩
    refine List.mem_flatMap.mpr ⟨q, h, ?_⟩
    rw [hm]
    simp
  | cons m ms =>
    refine ⟨⟨q.indicator_id, q.p_given_H, q.p_given_notH, q.k_ratio,
      some m.description⟩, ?_, rfl, rfl, rfl, rfl⟩
    refine List.mem_flatMap.mpr ⟨q, h, ?_⟩
    rw [hm]
    exact List.mem_map.mpr ⟨m, List.mem_cons_self _ _, rfl⟩

theorem succSlice_eq (full : List Cell) (ind : String) :
    (full.filter (fun c => c.is_success)).filter (fun c => c.indicator_id = ind) =
      full.filter (fun c => c.indicator_id = ind && c.is_success) := by
  rw [List.filter_filter]

theorem failSlice_eq (full : List Cell) (ind : String) :
    (full.filter (fun c => !c.is_success)).filter (fun c => c.indicator_id = ind) =
      full.filter (fun c => c.indicator_id = ind && !c.is_success) := by
  rw [List.filter_filter]

theorem activeSlice_eq (full : List Cell) (p : Cell → Bool) :
    (full.filter p).filter (fun c => c.active) =
      full.filter (fun c => c.active && p c) := by
  rw [List.filter_filter]

theorem pivotActive_filter (obs : List ObsRow) (q : ObsRow → Bool)
    (k : String × String)
    (hq : ∀ o : ObsRow, o.event_id = k.1 → o.indicator_id = k.2 → q o = true) :
    pivotActive (obs.filter q) k = pivotActive obs k := by
  unfold pivotActive
  have hfe : (obs.filter q).filter
      (fun o => o.event_id = k.1 ∧ o.indicator_id = k.2) =
      obs.filter (fun o => o.event_id = k.1 ∧ o.indicator_id = k.2) := by
    rw [List.filter_filter]
    apply List.filter_congr
    intro o _
    by_cases h : o.event_id = k.1 ∧ o.indicator_id = k.2
    · simp [h.1, h.2, hq o h.1 h.2]
    · simp [h]
  rw [hfe]

theorem denseMatrix_filter_obs (labels : List (String × Bool)) (obs : List ObsRow)
    (events indicators : List String) (q : ObsRow → Bool)
    (hq : ∀ p ∈ crossPairs events indicators, ∀ o : ObsRow,
      o.event_id = p.1 → o.indicator_id = p.2 → q o = true) :
    denseMatrix labels (obs.filter q) events indicators =
      denseMatrix labels obs events indicators := by
  unfold denseMatrix
  apply List.map_congr_left
  intro p hp
  rw [pivotActive_filter obs q p (hq p hp)]

theorem denseMatrix_map_pair (labels : List (String × Bool)) (obs : List ObsRow)
    (events indicators : List String) :
    (denseMatrix labels obs events indicators).map
      (fun c => (c.event_id, c.indicator_id)) = crossPairs events indicators := by
  unfold denseMatrix
  rw [List.map_map]
  exact List.map_id _

theorem ratioRow_indicator_id (alpha : ℚ) (s f : List Cell) (ind : String) :
    (ratioRow alpha s f ind).indicator_id = ind := rfl

theorem ratioRow_p_given_H (alpha : ℚ) (s f : List Cell) (ind : String) :
    (ratioRow alpha s f ind).p_given_H =
      if (s.filter (fun c => c.indicator_id = ind)).length = 0 then 1/2
      else ((((s.filter (fun c => c.indicator_id = ind)).filter
          (fun c => c.active)).length : ℚ) + alpha) /
        (((s.filter (fun c => c.indicator_id = ind)).length : ℚ) + 2 * alpha) := rfl

theorem ratioRow_p_given_notH (alpha : ℚ) (s f : List Cell) (ind : String) :
    (ratioRow alpha s f ind).p_given_notH =
      if (f.filter (fun c => c.indicator_id = ind)).length = 0 then 1/2
      else ((((f.filter (fun c => c.indicator_id = ind)).filter
          (fun c => c.active)).length : ℚ) + alpha) /
        (((f.filter (fun c => c.indicator_id = ind)).length : ℚ) + 2 * alpha) := rfl

theorem ratioRow_k_ratio (alpha : ℚ) (s f : List Cell) (ind : String) :
    (ratioRow alpha s f ind).k_ratio =
      (ratioRow alpha s f ind).p_given_H /
        max (ratioRow alpha s f ind).p_given_notH eps := rfl

theorem resultRows_eq (alpha : ℚ) (indicators : List String) (full : List Cell) :
    resultRows alpha indicators full =
      indicators.map (ratioRow alpha (full.filter (fun c => c.is_success))
        (full.filter (fun c => !c.is_success))) := rfl

theorem successLookup_labelEvents_nodup (t : ℚ) (evs : List EventRow)
    (e : EventRow) (hn : (evs.map (fun x => x.event_id)).Nodup) (he : e ∈ evs) :
    successLookup (labelEvents t evs) e.event_id =
      some (decide (t ≤ e.target_score)) := by
  induction evs with
  | nil => simp at he
  | cons x rest ih =>
    rw [List.map_cons] at hn
    rcases List.nodup_cons.mp hn with ⟨hx, hrest⟩
    unfold successLookup labelEvents
    rcases List.mem_cons.mp he with rfl | hmem
    · rw [List.map_cons, List.filter_cons_of_pos (by simp)]
      have hnil : ((rest.map
          (fun e2 => (e2.event_id, decide (t ≤ e2.target_score)))).filter
          (fun r => r.1 = e.event_id)) = [] := by
        apply List.filter_eq_nil_iff.mpr
        intro r hr
        rcases List.mem_map.mp hr with ⟨e2, he2, rfl⟩
        simp only [decide_eq_true_eq]
        intro heq
        exact hx (heq ▸ List.mem_map.mpr ⟨e2, he2, rfl⟩)
      rw [hnil]
      rfl
    · have hne : x.event_id ≠ e.event_id := by
        intro heq
        exact hx (heq ▸ List.mem_map.mpr ⟨e, hmem, rfl⟩)
      rw [List.map_cons, List.filter_cons_of_neg (by simp [hne])]
      exact ih hrest hmem

theorem filter_map_block (e : String) (I : List String)
    (qe qi : String → Bool) :
    (I.map (fun ind => (e, ind))).filter (fun p => qi p.2 && qe p.1) =
      if qe e then (I.filter qi).map (fun ind => (e, ind)) else [] := by
  induction I with
  | nil => by_cases h : qe e <;> simp [h]
  | cons i t ih =>
    rw [List.map_cons]
    by_cases hqe : qe e
    · rw [if_pos hqe] at ih ⊢
      by_cases hqi : qi i
      · rw [List.filter_cons_of_pos (by simp [hqe, hqi]), ih,
          List.filter_cons_of_pos (by simpa using hqi), List.map_cons]
      · rw [List.filter_cons_of_neg (by simp [hqe, hqi]), ih,
          List.filter_cons_of_neg (by simpa using hqi)]
    · rw [if_neg hqe] at ih ⊢
      rw [List.filter_cons_of_neg (by simp [hqe]), ih]

theorem filter_crossPairs (E I : List String) (qe qi : String → Bool) :
    (crossPairs E I).filter (fun p => qi p.2 && qe p.1) =
      crossPairs (E.filter qe) (I.filter qi) := by
  induction E with
  | nil => rfl
  | cons e t ih =>
    unfold crossPairs at ih ⊢
    rw [List.flatMap_cons, List.filter_append, ih, filter_map_block]
    by_cases hqe : qe e
    · rw [if_pos hqe, List.filter_cons_of_pos (by simpa using hqe),
        List.flatMap_cons]
    · rw [if_neg hqe, List.filter_cons_of_neg (by simpa using hqe)]
      simp

theorem string_filter_singleton (I : List String) (ind : String)
    (hn : I.Nodup) (hind : ind ∈ I) :
    I.filter (fun i => i = ind) = [ind] := by
  induction I with
  | nil => simp at hind
  | cons x t ih =>
    rcases List.nodup_cons.mp hn with ⟨hx, ht⟩
    by_cases hxe : x = ind
    · subst hxe
      rw [List.filter_cons_of_pos (by simp)]
      have : t.filter (fun i => i = x) = [] := by
        apply List.filter_eq_nil_iff.mpr
        intro i hi hdec
        exact hx ((of_decide_eq_true hdec) ▸ hi)
      rw [this]
    · have hmem : ind ∈ t := by
        rcases List.mem_cons.mp hind with h | h
        · exact absurd h.symm hxe
        · exact h
      rw [List.filter_cons_of_neg (by simp [hxe])]
      exact ih ht hmem

theorem length_succSlice_denseMatrix (labels : List (String × Bool))
    (obs : List ObsRow) (E I : List String) (ind : String) :
    ((denseMatrix labels obs E I).filter
        (fun c => c.indicator_id = ind && c.is_success)).length =
      (E.filter (fun ev => (successLookup labels ev).getD false)).length *
        (I.filter (fun i => i = ind)).length := by
  unfold denseMatrix
  rw [List.filter_map, List.length_map]
  rw [show ((fun c : Cell => decide (c.indicator_id = ind) && c.is_success) ∘
      (fun p : String × String =>
        (⟨p.1, p.2, pivotActive obs p, (successLookup labels p.1).getD false⟩ :
          Cell))) = (fun p : String × String => decide (p.2 = ind) &&
        (successLookup labels p.1).getD false) from rfl]
  rw [filter_crossPairs E I (fun ev => (successLookup labels ev).getD false)
    (fun i => decide (i = ind))]
  rw [length_crossPairs, Nat.mul_comm]

theorem length_failSlice_denseMatrix (labels : List (String × Bool))
    (obs : List ObsRow) (E I : List String) (ind : String) :
    ((denseMatrix labels obs E I).filter
        (fun c => c.indicator_id = ind && !c.is_success)).length =
      (E.filter (fun ev => !(successLookup labels ev).getD false)).length *
        (I.filter (fun i => i = ind)).length := by
  unfold denseMatrix
  rw [List.filter_map, List.length_map]
  rw [show ((fun c : Cell => decide (c.indicator_id = ind) && !c.is_success) ∘
      (fun p : String × String =>
        (⟨p.1, p.2, pivotActive obs p, (successLookup labels p.1).getD false⟩ :
          Cell))) = (fun p : String × String => decide (p.2 = ind) &&
        !(successLookup labels p.1).getD false) from rfl]
  rw [filter_crossPairs E I (fun ev => !(successLookup labels ev).getD false)
    (fun i => decide (i = ind))]
  rw [length_crossPairs, Nat.mul_comm]

theorem denseMatrix_inactive_of_unobserved_ind (labels : List (String × Bool))
    (obs : List ObsRow) (E I : List String) (ind : String)
    (hobs : ∀ o ∈ obs, o.indicator_id ≠ ind) :
    ∀ c ∈ denseMatrix labels obs E I, c.indicator_id = ind →
      c.active = false := by
  intro c hc hcind
  unfold denseMatrix at hc
  rcases List.mem_map.mp hc with ⟨p, _, rfl⟩
  obtain ⟨p1, p2⟩ := p
  apply pivotActive_eq_false_of_unobserved
  intro o ho hpair
  exact hobs o ho (hpair.2.trans hcind)

theorem indicator_filter_singleton (inds : List IndicatorRow) (a : String)
    (hn : (inds.map (fun i => i.indicator_id)).Nodup)
    (ha : a ∈ inds.map (fun i => i.indicator_id)) :
    ∃ m : IndicatorRow, inds.filter (fun i => i.indicator_id = a) = [m] := by
  induction inds with
  | nil => simp at ha
  | cons x rest ih =>
    rw [List.map_cons] at hn ha
    rcases List.nodup_cons.mp hn with ⟨hx, hrest⟩
    by_cases hxa : x.indicator_id = a
    · refine ⟨x, ?_⟩
      rw [List.filter_cons_of_pos (by simp [hxa])]
      have hnil : rest.filter (fun i => i.indicator_id = a) = [] := by
        apply List.filter_eq_nil_iff.mpr
        intro i hi hdec
        have hia : i.indicator_id = a := of_decide_eq_true hdec
        exact hx (hxa ▸ hia ▸ List.mem_map.mpr ⟨i, hi, rfl⟩)
      rw [hnil]
    · rcases List.mem_cons.mp ha with h | h
      · exact absurd h.symm hxa
      · rw [List.filter_cons_of_neg (by simp [hxa])]
        exact ih hrest h

theorem mergeDesc_map_id (inds : List IndicatorRow) (rows : List RatioRow)
    (hn : (inds.map (fun i => i.indicator_id)).Nodup)
    (hmem : ∀ q ∈ rows, q.indicator_id ∈ inds.map (fun i => i.indicator_id)) :
    (mergeDesc inds rows).map (fun r => r.indicator_id) =
      rows.map (fun q => q.indicator_id) := by
  induction rows with
  | nil => rfl
  | cons q rest ih =>
    unfold mergeDesc
    rw [List.flatMap_cons, List.map_append]
    rcases indicator_filter_singleton inds q.indicator_id hn
      (hmem q (List.mem_cons_self _ _)) with ⟨m, hm⟩
    rw [hm]
    have htail := ih (fun x hx => hmem x (List.mem_cons_of_mem _ hx))
    unfold mergeDesc at htail
    rw [htail, List.map_cons]
    rfl

/-! ### Claim theorems -/

/-- C2: the dense matrix built over the distinct event and indicator ids
has exactly distinct-events × distinct-indicators cells, its
(event_id, indicator_id) pairs have no duplicate and no gap relative to the
cross product, a pair with no observation gets active = false, and every
cell carries the success label of its event. -/
theorem dense_matrix_structure (cfg : Config) (inds : List IndicatorRow)
    (evs : List EventRow) (obs : List ObsRow) :
    (denseMatrix (labelEvents cfg.success_threshold evs) obs
        (uniqueList (evs.map (fun e => e.event_id)))
        (uniqueList (inds.map (fun i => i.indicator_id)))).length =
      (uniqueList (evs.map (fun e => e.event_id))).length *
        (uniqueList (inds.map (fun i => i.indicator_id))).length ∧
    ((denseMatrix (labelEvents cfg.success_threshold evs) obs
        (uniqueList (evs.map (fun e => e.event_id)))
        (uniqueList (inds.map (fun i => i.indicator_id)))).map
        (fun c => (c.event_id, c.indicator_id))).Nodup ∧
    (∀ ev ind : String,
      (ev, ind) ∈ (denseMatrix (labelEvents cfg.success_threshold evs) obs
        (uniqueList (evs.map (fun e => e.event_id)))
        (uniqueList (inds.map (fun i => i.indicator_id)))).map
          (fun c => (c.event_id, c.indicator_id)) ↔
        ev ∈ uniqueList (evs.map (fun e => e.event_id)) ∧
        ind ∈ uniqueList (inds.map (fun i => i.indicator_id))) ∧
    (∀ c ∈ denseMatrix (labelEvents cfg.success_threshold evs) obs
        (uniqueList (evs.map (fun e => e.event_id)))
        (uniqueList (inds.map (fun i => i.indicator_id))),
      (∀ o ∈ obs, ¬(o.event_id = c.event_id ∧ o.indicator_id = c.indicator_id)) →
        c.active = false) ∧
    (∀ c ∈ denseMatrix (labelEvents cfg.success_threshold evs) obs
        (uniqueList (evs.map (fun e => e.event_id)))
        (uniqueList (inds.map (fun i => i.indicator_id))),
      ∀ e ∈ evs, (evs.map (fun x => x.event_id)).Nodup →
        e.event_id = c.event_id →
        c.is_success = decide (cfg.success_threshold ≤ e.target_score)) := by
  refine ⟨?_, ?_, ?_, ?_, ?_⟩
  · unfold denseMatrix
    rw [List.length_map, length_crossPairs]
  · rw [denseMatrix_map_pair]
    exact nodup_crossPairs _ _ (nodup_uniqueList _) (nodup_uniqueList _)
  · intro ev ind
    rw [denseMatrix_map_pair]
    exact mem_crossPairs _ _ (ev, ind)
  · intro c hc hno
    unfold denseMatrix at hc
    rcases List.mem_map.mp hc with ⟨p, _, rfl⟩
    obtain ⟨p1, p2⟩ := p
    exact pivotActive_eq_false_of_unobserved obs p1 p2 hno
  · intro c hc e he hn heq
    unfold denseMatrix at hc
    rcases List.mem_map.mp hc with ⟨p, _, rfl⟩
    have hlook := successLookup_labelEvents_nodup cfg.success_threshold evs e hn he
    show (successLookup (labelEvents cfg.success_threshold evs) p.1).getD false = _
    have hp1 : p.1 = e.event_id := heq.symm
    rw [hp1, hlook]
    rfl

/-- Witness for C2: on a one-event, one-indicator input with no
observations, the single cell is inactive and carries label success. -/
theorem dense_matrix_structure_witness :
    (⟨"E1", "A", false, true⟩ : Cell).active = false ∧
    (⟨"E1", "A", false, true⟩ : Cell).is_success =
      decide ((7:ℚ)/10 ≤ (9:ℚ)/10) :=
  ⟨(dense_matrix_structure ⟨2/10, 7/10, 1⟩ [⟨"A", "a"⟩] [⟨"E1", 9/10⟩]
      []).2.2.2.1 ⟨"E1", "A", false, true⟩ (by decide) (by decide),
   (dense_matrix_structure ⟨2/10, 7/10, 1⟩ [⟨"A", "a"⟩] [⟨"E1", 9/10⟩]
      []).2.2.2.2 ⟨"E1", "A", false, true⟩ (by decide) ⟨"E1", 9/10⟩ (by decide)
      (by decide) rfl⟩

/-- C1: for every catalog indicator, the output row of fit_likelihoods
satisfies the smoothed-likelihood formulas: p_given_H is the Laplace
estimate (a_succ + alpha) / (n_succ + 2 alpha) when successful dense cells
exist and 1/2 otherwise, symmetrically for p_given_notH over failed cells,
and k_ratio = p_given_H / max(p_given_notH, 1e-9), where the counts range
over the dense matrix cells of that indicator. -/
theorem fit_likelihoods_formula (cfg : Config) (inds : List IndicatorRow)
    (evs : List EventRow) (obs : List ObsRow) (out : List OutRow)
    (h : fitLikelihoods cfg inds evs obs = some out)
    (ind : String) (hind : ind ∈ inds.map (fun i => i.indicator_id)) :
    ∃ r ∈ out, r.indicator_id = ind ∧
      (let full := denseMatrix (labelEvents cfg.success_threshold evs) obs
          (uniqueList (evs.map (fun e => e.event_id)))
          (uniqueList (inds.map (fun i => i.indicator_id)))
       let nSucc := (full.filter
          (fun c => c.indicator_id = ind && c.is_success)).length
       let aSucc := (full.filter
          (fun c => c.active && (c.indicator_id = ind && c.is_success))).length
       let nFail := (full.filter
          (fun c => c.indicator_id = ind && !c.is_success)).length
       let aFail := (full.filter
          (fun c => c.active && (c.indicator_id = ind && !c.is_success))).length
       (nSucc = 0 → r.p_given_H = 1/2) ∧
       (0 < nSucc → r.p_given_H =
          ((aSucc : ℚ) + cfg.laplace_alpha) /
            ((nSucc : ℚ) + 2 * cfg.laplace_alpha)) ∧
       (nFail = 0 → r.p_given_notH = 1/2) ∧
       (0 < nFail → r.p_given_notH =
          ((aFail : ℚ) + cfg.laplace_alpha) /
            ((nFail : ℚ) + 2 * cfg.laplace_alpha)) ∧
       r.k_ratio = r.p_given_H / max r.p_given_notH eps) := by
  rw [fitLikelihoods_eq_some] at h
  obtain rfl := Option.some_inj.mp h
  have hindI : ind ∈ uniqueList (inds.map (fun i => i.indicator_id)) :=
    (mem_uniqueList _ _).mpr hind
  rw [resultRows_eq]
  rcases mergeDesc_exists inds _ _ (List.mem_map.mpr ⟨ind, hindI, rfl⟩)
    with ⟨r, hr, hid, h1, h2, h3⟩
  refine ⟨r, hr, by rw [hid, ratioRow_indicator_id], ?_, ?_, ?_, ?_, ?_⟩
  · intro h0
    rw [h1, ratioRow_p_given_H, succSlice_eq, if_pos h0]
  · intro hpos
    rw [h1, ratioRow_p_given_H, succSlice_eq, activeSlice_eq,
      if_neg (Nat.pos_iff_ne_zero.mp hpos)]
  · intro h0
    rw [h2, ratioRow_p_given_notH, failSlice_eq, if_pos h0]
  · intro hpos
    rw [h2, ratioRow_p_given_notH, failSlice_eq, activeSlice_eq,
      if_neg (Nat.pos_iff_ne_zero.mp hpos)]
  · rw [h3, ratioRow_k_ratio, h1, h2]

/-- Witness for C1 on a one-indicator, one-event input with no
observations: n_succ = 1, a_succ = 0, n_fail = 0. -/
theorem fit_likelihoods_formula_witness :
    ∃ r ∈ [(⟨"A", (1:ℚ)/3, 1/2, 2/3, some "a"⟩ : OutRow)],
      r.indicator_id = "A" ∧
      ((1 = 0 → r.p_given_H = 1/2) ∧
       (0 < 1 → r.p_given_H = (((0:ℕ) : ℚ) + 1) / (((1:ℕ) : ℚ) + 2 * 1)) ∧
       (0 = 0 → r.p_given_notH = 1/2) ∧
       (0 < 0 → r.p_given_notH = (((0:ℕ) : ℚ) + 1) / (((0:ℕ) : ℚ) + 2 * 1)) ∧
       r.k_ratio = r.p_given_H / max r.p_given_notH eps) :=
  fit_likelihoods_formula ⟨2/10, 7/10, 1⟩ [⟨"A", "a"⟩] [⟨"E1", 9/10⟩] []
    [⟨"A", (1:ℚ)/3, 1/2, 2/3, some "a"⟩] (by decide) "A" (by decide)

/-- C3: for every observed (event_id, indicator_id) pair, the collapsed
activity flag is true iff at least one observation of that exact pair has
severity strictly greater than 0; repeated observations are combined by the
group maximum, never rejected. -/
theorem collapsed_activity_iff (obs : List ObsRow) (ev ind : String)
    (h : ∃ o ∈ obs, o.event_id = ev ∧ o.indicator_id = ind) :
    (pivotActive obs (ev, ind) = true ↔
      ∃ o ∈ obs, o.event_id = ev ∧ o.indicator_id = ind ∧ 0 < o.severity) := by
  exact pivotActive_eq_true obs ev ind

/-- Witness for C3 at a pair observed twice, once with severity 0 and once
with severity 5. -/
theorem collapsed_activity_iff_witness :
    (pivotActive [⟨"E1", "A", 0⟩, ⟨"E1", "A", 5⟩] ("E1", "A") = true ↔
      ∃ o ∈ ([⟨"E1", "A", 0⟩, ⟨"E1", "A", 5⟩] : List ObsRow),
        o.event_id = "E1" ∧ o.indicator_id = "A" ∧ 0 < o.severity) :=
  collapsed_activity_iff [⟨"E1", "A", 0⟩, ⟨"E1", "A", 5⟩] "E1" "A"
    ⟨⟨"E1", "A", 0⟩, by decide⟩

/-- C4: on the concrete two-indicator, two-event scenario of the spec,
fit_likelihoods yields p_given_H = 2/3, p_given_notH = 1/3, k_ratio = 2 for
A and p_given_H = p_given_notH = 1/3, k_ratio = 1 for B. -/
theorem concrete_scenario_output :
    fitLikelihoods ⟨2/10, 7/10, 1⟩ [⟨"A", "descA"⟩, ⟨"B", "descB"⟩]
      [⟨"E1", 9/10⟩, ⟨"E2", 1/10⟩]
      [⟨"E1", "A", 5⟩, ⟨"E1", "B", 0⟩, ⟨"E2", "A", 0⟩] =
      some [⟨"A", 2/3, 1/3, 2, some "descA"⟩,
        ⟨"B", 1/3, 1/3, 1, some "descB"⟩] := by
  decide

theorem smoothed_estimate_bounds (alpha : ℚ) (ha : 0 < alpha) (n a : ℕ)
    (hle : a ≤ n) :
    0 < (if n = 0 then (1:ℚ)/2 else ((a:ℚ) + alpha) / ((n:ℚ) + 2*alpha)) ∧
    (if n = 0 then (1:ℚ)/2 else ((a:ℚ) + alpha) / ((n:ℚ) + 2*alpha)) ≤ 1 := by
  by_cases hn : n = 0
  · rw [if_pos hn]
    norm_num
  · rw [if_neg hn]
    have hn1 : (1:ℚ) ≤ (n:ℚ) := by
      exact_mod_cast Nat.one_le_iff_ne_zero.mpr hn
    have ha0 : (0:ℚ) ≤ (a:ℚ) := Nat.cast_nonneg a
    have han : (a:ℚ) ≤ (n:ℚ) := by exact_mod_cast hle
    have hden : 0 < (n:ℚ) + 2*alpha := by linarith
    constructor
    · apply div_pos
      · linarith
      · exact hden
    · rw [div_le_one hden]
      linarith

theorem ratioRow_bounds (alpha : ℚ) (s f : List Cell) (ind : String)
    (ha : 0 < alpha) :
    0 < (ratioRow alpha s f ind).p_given_H ∧
    (ratioRow alpha s f ind).p_given_H ≤ 1 ∧
    0 < (ratioRow alpha s f ind).p_given_notH ∧
    (ratioRow alpha s f ind).p_given_notH ≤ 1 ∧
    0 ≤ (ratioRow alpha s f ind).k_ratio := by
  have hH := smoothed_estimate_bounds alpha ha
    (s.filter (fun c => c.indicator_id = ind)).length
    ((s.filter (fun c => c.indicator_id = ind)).filter
      (fun c => c.active)).length (List.length_filter_le _ _)
  have hN := smoothed_estimate_bounds alpha ha
    (f.filter (fun c => c.indicator_id = ind)).length
    ((f.filter (fun c => c.indicator_id = ind)).filter
      (fun c => c.active)).length (List.length_filter_le _ _)
  rw [← ratioRow_p_given_H alpha s f ind] at hH
  rw [← ratioRow_p_given_notH alpha s f ind] at hN
  refine ⟨hH.1, hH.2, hN.1, hN.2, ?_⟩
  rw [ratioRow_k_ratio]
  apply div_nonneg (le_of_lt hH.1)
  have heps : (0:ℚ) < eps := by decide
  exact le_trans (le_of_lt heps) (le_max_right _ _)

/-- C7: every output row of fit_likelihoods has p_given_H and p_given_notH
in (0,1] and a non-negative k_ratio, given a positive smoothing constant. -/
theorem probability_bounds (cfg : Config) (inds : List IndicatorRow)
    (evs : List EventRow) (obs : List ObsRow) (out : List OutRow)
    (ha : 0 < cfg.laplace_alpha)
    (h : fitLikelihoods cfg inds evs obs = some out) :
    ∀ r ∈ out, 0 < r.p_given_H ∧ r.p_given_H ≤ 1 ∧
      0 < r.p_given_notH ∧ r.p_given_notH ≤ 1 ∧ 0 ≤ r.k_ratio := by
  rw [fitLikelihoods_eq_some] at h
  obtain rfl := Option.some_inj.mp h
  intro r hr
  rcases mergeDesc_mem _ _ _ hr with ⟨q, hq, _, h1, h2, h3⟩
  rw [resultRows_eq] at hq
  rcases List.mem_map.mp hq with ⟨ind, _, rfl⟩
  rw [h1, h2, h3]
  exact ratioRow_bounds _ _ _ _ ha

/-- Witness for C7 at a concrete one-indicator input. -/
theorem probability_bounds_witness :
    0 < (1:ℚ)/3 ∧ (1:ℚ)/3 ≤ 1 ∧ 0 < (1:ℚ)/2 ∧ (1:ℚ)/2 ≤ 1 ∧
      (0:ℚ) ≤ (1:ℚ)/3 / max ((1:ℚ)/2) eps :=
  probability_bounds ⟨2/10, 7/10, 1⟩ [⟨"A", "a"⟩] [⟨"E1", 9/10⟩] []
    [⟨"A", (1:ℚ)/3, 1/2, (1:ℚ)/3 / max ((1:ℚ)/2) eps, some "a"⟩]
    (by decide) (by decide) ⟨"A", (1:ℚ)/3, 1/2, (1:ℚ)/3 / max ((1:ℚ)/2) eps,
      some "a"⟩ (by decide)

/-- C6: the configured prior_prob has no effect on the output: two runs on
identical tables whose configurations agree on success_threshold and
laplace_alpha return identical result tables. -/
theorem prior_prob_no_effect (cfg1 cfg2 : Config) (inds : List IndicatorRow)
    (evs : List EventRow) (obs : List ObsRow)
    (ht : cfg1.success_threshold = cfg2.success_threshold)
    (ha : cfg1.laplace_alpha = cfg2.laplace_alpha) :
    fitLikelihoods cfg1 inds evs obs = fitLikelihoods cfg2 inds evs obs := by
  unfold fitLikelihoods
  rw [ht, ha]

/-- Witness for C6: two configurations that differ only in prior_prob. -/
theorem prior_prob_no_effect_witness :
    fitLikelihoods ⟨2/10, 7/10, 1⟩ [⟨"A", "a"⟩] [⟨"E1", 9/10⟩] [⟨"E1", "A", 5⟩] =
      fitLikelihoods ⟨9/10, 7/10, 1⟩ [⟨"A", "a"⟩] [⟨"E1", 9/10⟩]
        [⟨"E1", "A", 5⟩] :=
  prior_prob_no_effect ⟨2/10, 7/10, 1⟩ ⟨9/10, 7/10, 1⟩ [⟨"A", "a"⟩]
    [⟨"E1", 9/10⟩] [⟨"E1", "A", 5⟩] rfl rfl

/-- Counterexample to C8: a historical events table with two rows sharing
event_id E1 does not abort — fit_likelihoods completes normally, the
duplicated event contributes one set of dense cells, and its success label
comes from the last duplicate row (score 1/10, a failure). -/
theorem duplicate_event_ids_no_failure :
    fitLikelihoods ⟨2/10, 7/10, 1⟩ [⟨"A", "a"⟩]
        [⟨"E1", 9/10⟩, ⟨"E1", 1/10⟩] [] =
      some [⟨"A", 1/2, 1/3, 3/2, some "a"⟩] ∧
    fitLikelihoods ⟨2/10, 7/10, 1⟩ [⟨"A", "a"⟩]
        [⟨"E1", 9/10⟩, ⟨"E1", 1/10⟩] [] ≠ none := by
  decide

/-- C8 (amended): fit_likelihoods performs no event_id uniqueness check and
never raises on any input — in particular a run on a table with duplicate
event ids completes and returns a result table. -/
theorem fit_likelihoods_total (cfg : Config) (inds : List IndicatorRow)
    (evs : List EventRow) (obs : List ObsRow) :
    (fitLikelihoods cfg inds evs obs).isSome := by
  rw [fitLikelihoods_eq_some]
  rfl

/-- Counterexample to C9: an observation whose event_id E2 is absent from
the events table does not abort the run — fit_likelihoods completes and the
stray row has no effect on the output. -/
theorem unknown_event_obs_no_failure :
    fitLikelihoods ⟨2/10, 7/10, 1⟩ [⟨"A", "a"⟩] [⟨"E1", 9/10⟩]
        [⟨"E2", "A", 5⟩] =
      some [⟨"A", 1/3, 1/2, 2/3, some "a"⟩] ∧
    fitLikelihoods ⟨2/10, 7/10, 1⟩ [⟨"A", "a"⟩] [⟨"E1", 9/10⟩]
        [⟨"E2", "A", 5⟩] ≠ none := by
  decide

/-- C9 (amended): observations whose event_id does not appear in the
historical events table are silently ignored: removing them leaves the
output of fit_likelihoods unchanged (and by C8 the run never aborts). -/
theorem unknown_event_obs_ignored (cfg : Config) (inds : List IndicatorRow)
    (evs : List EventRow) (obs : List ObsRow) :
    fitLikelihoods cfg inds evs
        (obs.filter (fun o => evs.any (fun e => e.event_id = o.event_id))) =
      fitLikelihoods cfg inds evs obs := by
  rw [fitLikelihoods_eq_some, fitLikelihoods_eq_some]
  rw [denseMatrix_filter_obs]
  intro p hp o hoe _
  rcases List.mem_map.mp
    ((mem_uniqueList _ _).mp ((mem_crossPairs _ _ p).mp hp).1) with ⟨e, he, hid⟩
  refine List.any_eq_true.mpr ⟨e, he, ?_⟩
  rw [hid, hoe]
  simp

theorem resultRows_ids (alpha : ℚ) (I : List String) (full : List Cell)
    (q : RatioRow) (hq : q ∈ resultRows alpha I full) : q.indicator_id ∈ I := by
  rw [resultRows_eq] at hq
  rcases List.mem_map.mp hq with ⟨i, hi, rfl⟩
  rw [ratioRow_indicator_id]
  exact hi

/-- Counterexample to C5: indicator B has zero observations, yet with one
successful and one failed event its row is (1/3, 1/3, 1), not the
all-neutral (1/2, 1/2, 1) — the neutral fallback depends on event counts,
not observation counts. -/
theorem unobserved_indicator_not_neutral :
    fitLikelihoods ⟨2/10, 7/10, 1⟩ [⟨"B", "b"⟩]
        [⟨"E1", 9/10⟩, ⟨"E2", 1/10⟩] [] =
      some [⟨"B", 1/3, 1/3, 1, some "b"⟩] ∧ ((1:ℚ)/3 ≠ 1/2) := by
  decide

/-- C5 (amended): an indicator with zero observations raises no exception;
all its dense cells are inactive, so its row is the zero-active-count
smoothed estimate: p_given_H = alpha / (n_succ + 2 alpha) where n_succ is
the number of distinct successful events (1/2 when there are none),
symmetrically for p_given_notH over failed events, and k_ratio their
floored ratio; the all-neutral (1/2, 1/2, 1) row arises exactly when there
are no events of either class. -/
theorem unobserved_indicator_row (cfg : Config) (inds : List IndicatorRow)
    (evs : List EventRow) (obs : List ObsRow) (out : List OutRow)
    (h : fitLikelihoods cfg inds evs obs = some out)
    (ind : String) (hind : ind ∈ inds.map (fun i => i.indicator_id))
    (hobs : ∀ o ∈ obs, o.indicator_id ≠ ind) :
    ∃ r ∈ out, r.indicator_id = ind ∧
      (let nSucc := ((uniqueList (evs.map (fun e => e.event_id))).filter
          (fun ev => (successLookup (labelEvents cfg.success_threshold evs)
            ev).getD false)).length
       let nFail := ((uniqueList (evs.map (fun e => e.event_id))).filter
          (fun ev => !(successLookup (labelEvents cfg.success_threshold evs)
            ev).getD false)).length
       r.p_given_H = (if nSucc = 0 then 1/2
          else cfg.laplace_alpha / ((nSucc : ℚ) + 2 * cfg.laplace_alpha)) ∧
       r.p_given_notH = (if nFail = 0 then 1/2
          else cfg.laplace_alpha / ((nFail : ℚ) + 2 * cfg.laplace_alpha)) ∧
       r.k_ratio = r.p_given_H / max r.p_given_notH eps) := by
  rw [fitLikelihoods_eq_some] at h
  obtain rfl := Option.some_inj.mp h
  have hindI : ind ∈ uniqueList (inds.map (fun i => i.indicator_id)) :=
    (mem_uniqueList _ _).mpr hind
  rw [resultRows_eq]
  rcases mergeDesc_exists inds _ _ (List.mem_map.mpr ⟨ind, hindI, rfl⟩)
    with ⟨r, hr, hid, h1, h2, h3⟩
  have hsl := length_succSlice_denseMatrix
    (labelEvents cfg.success_threshold evs) obs
    (uniqueList (evs.map (fun e => e.event_id)))
    (uniqueList (inds.map (fun i => i.indicator_id))) ind
  have hfl := length_failSlice_denseMatrix
    (labelEvents cfg.success_threshold evs) obs
    (uniqueList (evs.map (fun e => e.event_id)))
    (uniqueList (inds.map (fun i => i.indicator_id))) ind
  rw [string_filter_singleton _ ind (nodup_uniqueList _) hindI] at hsl hfl
  simp only [List.length_singleton, Nat.mul_one] at hsl hfl
  have hzeroS : ((denseMatrix (labelEvents cfg.success_threshold evs) obs
      (uniqueList (evs.map (fun e => e.event_id)))
      (uniqueList (inds.map (fun i => i.indicator_id)))).filter
        (fun c => c.indicator_id = ind && c.is_success)).filter
          (fun c => c.active) = [] := by
    apply List.filter_eq_nil_iff.mpr
    intro c hc hact
    rcases List.mem_filter.mp hc with ⟨hcfull, hcpred⟩
    have hcind : c.indicator_id = ind :=
      of_decide_eq_true ((Bool.and_eq_true _ _).mp hcpred).1
    rw [denseMatrix_inactive_of_unobserved_ind _ obs _ _ ind hobs c hcfull
      hcind] at hact
    exact Bool.false_ne_true hact
  have hzeroF : ((denseMatrix (labelEvents cfg.success_threshold evs) obs
      (uniqueList (evs.map (fun e => e.event_id)))
      (uniqueList (inds.map (fun i => i.indicator_id)))).filter
        (fun c => c.indicator_id = ind && !c.is_success)).filter
          (fun c => c.active) = [] := by
    apply List.filter_eq_nil_iff.mpr
    intro c hc hact
    rcases List.mem_filter.mp hc with ⟨hcfull, hcpred⟩
    have hcind : c.indicator_id = ind :=
      of_decide_eq_true ((Bool.and_eq_true _ _).mp hcpred).1
    rw [denseMatrix_inactive_of_unobserved_ind _ obs _ _ ind hobs c hcfull
      hcind] at hact
    exact Bool.false_ne_true hact
  refine ⟨r, hr, by rw [hid, ratioRow_indicator_id], ?_, ?_, ?_⟩
  · rw [h1, ratioRow_p_given_H, succSlice_eq, hzeroS, hsl]
    simp only [List.length_nil, Nat.cast_zero, zero_add]
  · rw [h2, ratioRow_p_given_notH, failSlice_eq, hzeroF, hfl]
    simp only [List.length_nil, Nat.cast_zero, zero_add]
  · rw [h3, ratioRow_k_ratio, h1, h2]

/-- Witness for C5 (amended) at indicator B with zero observations, one
successful and one failed event. -/
theorem unobserved_indicator_row_witness :
    ∃ r ∈ [(⟨"B", (1:ℚ)/3, 1/3, 1, some "b"⟩ : OutRow)],
      r.indicator_id = "B" ∧
      (r.p_given_H = (if (1:ℕ) = 0 then 1/2
          else (1:ℚ) / (((1:ℕ) : ℚ) + 2 * 1)) ∧
       r.p_given_notH = (if (1:ℕ) = 0 then 1/2
          else (1:ℚ) / (((1:ℕ) : ℚ) + 2 * 1)) ∧
       r.k_ratio = r.p_given_H / max r.p_given_notH eps) :=
  unobserved_indicator_row ⟨2/10, 7/10, 1⟩ [⟨"B", "b"⟩]
    [⟨"E1", 9/10⟩, ⟨"E2", 1/10⟩] [] [⟨"B", (1:ℚ)/3, 1/3, 1, some "b"⟩]
    (by decide) "B" (by decide) (by decide)

/-- C10: observation rows whose indicator_id is not in the catalog have no
effect — removing them leaves the output unchanged — and (for a catalog
with unique ids, its data-model key invariant) the output has exactly one
row per catalog indicator_id, in catalog order. -/
theorem unknown_indicator_obs_row_structure (cfg : Config)
    (inds : List IndicatorRow) (evs : List EventRow) (obs : List ObsRow) :
    (fitLikelihoods cfg inds evs
        (obs.filter (fun o => inds.any
          (fun i => i.indicator_id = o.indicator_id))) =
      fitLikelihoods cfg inds evs obs) ∧
    ((inds.map (fun i => i.indicator_id)).Nodup →
      ∀ out, fitLikelihoods cfg inds evs obs = some out →
        out.map (fun r => r.indicator_id) =
          inds.map (fun i => i.indicator_id)) := by
  constructor
  · rw [fitLikelihoods_eq_some, fitLikelihoods_eq_some, denseMatrix_filter_obs]
    intro p hp o _ hoi
    rcases List.mem_map.mp ((mem_uniqueList _ _).mp
      ((mem_crossPairs _ _ p).mp hp).2) with ⟨i, hi, hiid⟩
    refine List.any_eq_true.mpr ⟨i, hi, ?_⟩
    rw [hiid, hoi]
    simp
  · intro hn out hout
    rw [fitLikelihoods_eq_some] at hout
    obtain rfl := Option.some_inj.mp hout
    have hmemb : ∀ q ∈ resultRows cfg.laplace_alpha
        (uniqueList (inds.map (fun i => i.indicator_id)))
        (denseMatrix (labelEvents cfg.success_threshold evs) obs
          (uniqueList (evs.map (fun e => e.event_id)))
          (uniqueList (inds.map (fun i => i.indicator_id)))),
        q.indicator_id ∈ inds.map (fun i => i.indicator_id) :=
      fun q hq => (mem_uniqueList _ _).mp (resultRows_ids _ _ _ q hq)
    rw [mergeDesc_map_id inds _ hn hmemb]
    rw [resultRows_eq, List.map_map]
    have hmap : ∀ (s f : List Cell) (L : List String),
        L.map ((fun q : RatioRow => q.indicator_id) ∘
          (ratioRow cfg.laplace_alpha s f)) = L := by
      intro s f L
      induction L with
      | nil => rfl
      | cons a t ih =>
        rw [List.map_cons, ih]
        rfl
    rw [hmap]
    exact uniqueList_eq_self _ hn

/-- Witness for C10: a stray observation of unknown indicator B is removed
by the filter without changing the output, and the output rows follow the
catalog. -/
theorem unknown_indicator_obs_row_structure_witness :
    List.map (fun r : OutRow => r.indicator_id)
        [(⟨"A", (1:ℚ)/2, 1/2, 1, some "a"⟩ : OutRow)] =
      List.map (fun i : IndicatorRow => i.indicator_id)
        [(⟨"A", "a"⟩ : IndicatorRow)] :=
  (unknown_indicator_obs_row_structure ⟨2/10, 7/10, 1⟩ [⟨"A", "a"⟩] []
    [⟨"E1", "B", 1⟩]).2 (by decide)
    [⟨"A", (1:ℚ)/2, 1/2, 1, some "a"⟩] (by decide)

end Forecaster
